import Mathlib

/-!
Shallow embedding of the `jhsiao.tests` package (files `simple.py` and
`bench.py`) and proofs about its specified behaviour.

Modelling conventions:
* A module member is a name together with the outcome of calling it with no
  arguments (`ok = true` means the call returns, `ok = false` means it raises).
* Python exceptions are modelled with `Except`: a propagating exception is an
  `Except.error` carrying the state at the moment of the raise.
* Timing samples and benchmark results are modelled over `ℚ` (exact
  arithmetic standing in for Python floats).
* Python dictionaries keyed by insertion order are modelled as association
  lists in the same order.
-/

namespace JhsiaoTests

/-! ## simple.py -/

/-- Model of one attribute of an imported module, as seen by `simple.run`:
its attribute name (a Python string, modelled as its character list) and
whether calling it succeeds (`ok = true`) or raises (`ok = false`). -/
structure Member where
  name : List Char
  ok : Bool
deriving Repr, DecidableEq

/-- Selection test from `simple.run` (simple.py lines 63-70): a member is
selected when its name starts with the configured test-name prefix
(`k.startswith(prefix)`) and, when an explicit target list was given, the
part of the name after the prefix (`k[len(prefix):]`) is among the targets.
An empty `targets` list models Python's `targets = ()` (no filtering). -/
def selMember (pre : List Char) (targets : List (List Char)) (m : Member) : Bool :=
  List.isPrefixOf pre m.name
    && (targets.isEmpty || targets.contains (m.name.drop pre.length))

/-- State carried through the loop of `simple.run` (simple.py lines 60-62):
attempted count, pass count, list of failed test names, plus a trace of the
member names actually invoked (the calls `getattr(item, k)()` at line 77,
in order). -/
structure SimState where
  ntried : Nat := 0
  npass : Nat := 0
  failed : List (List Char) := []
  trace : List (List Char) := []
deriving Repr, DecidableEq

/-- One iteration of the loop body of `simple.run` (simple.py lines 63-87)
for member `m`.  A non-selected member leaves the state unchanged.  A
selected member is invoked (recorded in `trace`) after incrementing
`ntried`; on success `npass` is incremented; on failure, with
`runall = true` the stripped name is appended to `failed` and the loop
continues, otherwise the exception propagates (`Except.error` with the
state at the raise). -/
def runStep (runall : Bool) (pre : List Char) (targets : List (List Char))
    (st : SimState) (m : Member) : Except SimState SimState :=
  if selMember pre targets m then
    let st1 : SimState :=
      { st with ntried := st.ntried + 1, trace := st.trace ++ [m.name] }
    if m.ok then
      Except.ok { st1 with npass := st1.npass + 1 }
    else if runall then
      Except.ok { st1 with failed := st1.failed ++ [m.name.drop pre.length] }
    else
      Except.error st1
  else
    Except.ok st

/-- The loop of `simple.run` over the module's members (simple.py lines
63-87), threading `SimState`; an `Except.error` models the re-raise at
line 82 aborting the loop. -/
def runLoop (runall : Bool) (pre : List Char) (targets : List (List Char)) :
    List Member → SimState → Except SimState SimState
  | [], st => Except.ok st
  | m :: rest, st =>
    match runStep runall pre targets st m with
    | Except.ok st1 => runLoop runall pre targets rest st1
    | Except.error st1 => Except.error st1

/-- Model of `simple.run` on an already-imported module (its member list in
`dir` order): runs the loop from the initial zero state. -/
def runSimple (runall : Bool) (pre : List Char) (targets : List (List Char))
    (members : List Member) : Except SimState SimState :=
  runLoop runall pre targets members {}

/-- Names of the selected members of a module, in order. -/
def selectedNames (pre : List Char) (targets : List (List Char))
    (members : List Member) : List (List Char) :=
  (members.filter (selMember pre targets)).map Member.name

/-- Python `list.remove(x)` on the import search path, with the resulting
`ValueError` swallowed when `x` is absent (simple.py lines 32-35): remove
the first occurrence of `x`, or leave the list unchanged. -/
def pyRemove (x : String) : List String → List String
  | [] => []
  | y :: ys => if y = x then ys else y :: pyRemove x ys

/-- Search path visible to the import attempt in `_import` (simple.py line
26): the containing directory is inserted at the front. -/
def importDuringPath (dname : String) (path0 : List String) : List String :=
  dname :: path0

/-- Outcome of the attempt inside the `try` of `_import`: normal return,
an `ImportError` (caught, execution falls through to the plain module
resolution at line 36), or any other exception (propagates). -/
inductive ImportOutcome where
  | ret
  | importError
  | otherError
deriving Repr, DecidableEq

/-- Search path after `_import` finishes its file/directory branch
(simple.py lines 26-35): in every outcome the `finally` clause removes the
first occurrence of `dname` from the path that the attempt ran with. -/
def importFinalPath (dname : String) (path0 : List String)
    (outcome : ImportOutcome) : List String :=
  let during := importDuringPath dname path0
  match outcome with
  | ImportOutcome.ret => pyRemove dname during
  | ImportOutcome.importError => pyRemove dname during
  | ImportOutcome.otherError => pyRemove dname during

/-! ## bench.py -/

/-- Python namespace dictionary (the `gdict` / `l` dicts passed to `exec`
in `check_values`), modelled as an association list from variable names to
values; the most recent binding comes first. -/
abbrev NS (V : Type) := List (String × V)

/-- Dictionary lookup `l[vname]`: the value bound to `vname`, or `none`
(modelling the `KeyError` caught at bench.py line 76). -/
def nsLookup {V : Type} (vname : String) : NS V → Option V
  | [] => none
  | (k, v) :: rest => if k = vname then some v else nsLookup vname rest

/-- One code fragment or zero-argument callable handed to `exec`, modelled
shallowly as a transformer of the namespace it is executed in.  A callable
script is the special case that binds `vname` to the call's return value
(bench.py lines 69-71); a callable setup is the special case that only runs
the function (bench.py lines 58-60). -/
abbrev Frag (V : Type) := NS V → NS V

/-- State produced by the first loop of `check_values` (bench.py lines
62-81): the entry names, per-entry extracted results (`None` when `vname`
was undefined), the still-valid entries (index plus, for convenience, the
name `names[i]` and value `results[i]` that the second loop reads through
the index), and the names that did not define `vname`. -/
structure CheckScan (V : Type) where
  names : List String
  results : List (Option V)
  valid : List (Nat × String × V)
  invalid : List String

/-- First loop of `check_values` (bench.py lines 62-81): for each script,
execute it on a copy of the setup namespace (`l = gdict.copy()`;
`exec(script, l)`) and try to extract `l[vname]`; on success record the
value and the entry's index in `valid`, otherwise record `None` in
`results` and the name in `invalid`.  `i` is the `enumerate` counter. -/
def collectResults {V : Type} (gdict : NS V) (vname : String) :
    Nat → List (String × Frag V) → CheckScan V
  | _, [] => ⟨[], [], [], []⟩
  | i, (name, script) :: rest =>
    let l := script gdict
    let tail := collectResults gdict vname (i + 1) rest
    match nsLookup vname l with
    | some v =>
      ⟨name :: tail.names, some v :: tail.results,
       (i, name, v) :: tail.valid, tail.invalid⟩
    | none =>
      ⟨name :: tail.names, none :: tail.results, tail.valid, name :: tail.invalid⟩

/-- Second loop of `check_values` (bench.py lines 82-95), fuelled to make
the recursion structural.  The Python code walks `valid`, replacing later
entries by `None` once grouped; equivalently the first remaining entry
opens a set `{key: [names[key], …]}` collecting every later entry whose
result is `eq`-equal to `results[key]` (always compared against the key's
result, in order), and the loop continues on the leftover entries.  The
fuel is at least the list length at every call, so the `fuel = 0` branch
with a non-empty list is never reached. -/
def groupEqFuel {V : Type} (eqf : V → V → Bool) :
    Nat → List (Nat × String × V) → List (Nat × List String)
  | _, [] => []
  | 0, _ :: _ => []
  | Nat.succ fuel, (k, n, v) :: rest =>
    (k, n :: (rest.filter (fun p => eqf v p.2.2)).map (fun p => p.2.1)) ::
      groupEqFuel eqf fuel (rest.filter (fun p => !eqf v p.2.2))

/-- Equivalence sets computed by `check_values` (bench.py lines 82-95). -/
def groupEq {V : Type} (eqf : V → V → Bool) (valid : List (Nat × String × V)) :
    List (Nat × List String) :=
  groupEqFuel eqf valid.length valid

/-- Model of `bench.check_values` (bench.py lines 31-95): run the setup in
an empty namespace, execute each script on a copy of the resulting
namespace, and partition the entries that defined `vname` into equivalence
sets under `eqf`.  Returns `(sets, results, unchecked)`. -/
def check_values {V : Type} (scripts : List (String × Frag V)) (setup : Frag V)
    (eqf : V → V → Bool) (vname : String) :
    List (Nat × List String) × List (Option V) × List String :=
  let gdict := setup []
  let scan := collectResults gdict vname 0 scripts
  (groupEq eqf scan.valid, scan.results, scan.invalid)

/-- Equivalence-check branch of `bench.run` (bench.py lines 178-189): with
an equality predicate supplied, compute the equivalence sets; when
`len(sets) == 1` print "All results match!" and proceed to timing
(`Except.ok`), otherwise print every set and raise `ValueError` (modelled
as `Except.error` carrying the sets that are printed). -/
def runEquivCheck {V : Type} (scripts : List (String × Frag V)) (setup : Frag V)
    (eqf : V → V → Bool) (vname : String) :
    Except (List (Nat × List String)) Unit :=
  let sets := (check_values scripts setup eqf vname).1
  if sets.length = 1 then Except.ok () else Except.error sets

/-- Python `result.sort()` on the timing samples (bench.py line 215),
modelled as insertion sort by `≤`. -/
def sortSamples (l : List ℚ) : List ℚ := l.insertionSort (fun a b => a ≤ b)

/-- Summary statistics printed for one entry by `bench.run`. -/
structure Stats where
  min : ℚ
  mean : ℚ
  med : ℚ
  max : ℚ
deriving Repr, DecidableEq

/-- Statistics computed in the timing loop of `bench.run` (bench.py lines
215-235): sort the samples; `result[0]` is the min and `result[-1]` the
max; the mean is `sum(result)/len(result)`; the median is `result[mid]`
with `mid = len(result)//2`, averaged with `result[mid-1]` (`*= 0.5`) when
the length is even.  The out-of-range defaults (0) are unreachable for the
non-empty sample lists `timeit.repeat` produces. -/
def benchStats (result : List ℚ) : Stats :=
  let s := sortSamples result
  let mid := s.length / 2
  let med0 := s.getD mid 0
  let med := if s.length % 2 = 0 then (med0 + s.getD (mid - 1) 0) * (1/2) else med0
  { min := s.headD 0, mean := result.sum / (result.length : ℚ), med := med,
    max := s.getLastD 0 }

/-- One benchmark entry at timing time: its name and the outcome of
`timeit.repeat` (bench.py line 209) — an error string (the formatted
traceback) or the list of timing samples. -/
abbrev TimedEntry := String × Except String (List ℚ)

/-- Accumulator of the timing loop of `bench.run` (bench.py lines
194-236): the `errored` dict, the lines already printed inside the loop
(`nosort` mode), and the `printout` list of `(result[0], line)` tuples
collected for later sorting. -/
structure BenchAcc where
  errored : List (String × String) := []
  printedNow : List (String × Stats) := []
  printout : List (ℚ × String × Stats) := []

/-- Timing loop of `bench.run` (bench.py lines 207-236): an entry whose
timing raises is recorded in `errored` and the loop continues; otherwise
its statistics line is printed immediately (`nosort`) or appended to
`printout` keyed by the minimum sample `result[0]`. -/
def timeFold (nosort : Bool) : List TimedEntry → BenchAcc → BenchAcc
  | [], acc => acc
  | (name, Except.error e) :: rest, acc =>
    timeFold nosort rest { acc with errored := acc.errored ++ [(name, e)] }
  | (name, Except.ok result) :: rest, acc =>
    let st := benchStats result
    if nosort then
      timeFold nosort rest { acc with printedNow := acc.printedNow ++ [(name, st)] }
    else
      timeFold nosort rest
        { acc with printout := acc.printout ++ [(st.min, name, st)] }

/-- Post-loop output of `bench.run` (bench.py lines 207-245): with
`nosort` the summary lines are the ones printed inside the loop, in
mapping order; otherwise `printout.sort(key=lambda x: x[0])` sorts them by
minimum sample before printing.  Returns the summary lines and the
errored report. -/
def benchRun (nosort : Bool) (entries : List TimedEntry) :
    List (String × Stats) × List (String × String) :=
  let acc := timeFold nosort entries {}
  let lines :=
    if nosort then acc.printedNow
    else (acc.printout.insertionSort (fun a b => a.1 ≤ b.1)).map (fun t => t.2)
  (lines, acc.errored)

/-- Per-entry summary rows that the timing loop produces for the entries
whose timing succeeded, in mapping order. -/
def okRows (entries : List TimedEntry) : List (String × Stats) :=
  entries.filterMap (fun p =>
    match p.2 with
    | Except.ok res => some (p.1, benchStats res)
    | Except.error _ => none)

/-- Errored report produced by the timing loop, in mapping order. -/
def errRows (entries : List TimedEntry) : List (String × String) :=
  entries.filterMap (fun p =>
    match p.2 with
    | Except.ok _ => none
    | Except.error e => some (p.1, e))

/-! ### Sorted-list helper lemmas -/

theorem sorted_headD_le (s : List ℚ) (hs : s.Sorted (fun a b => a ≤ b)) :
    ∀ x ∈ s, s.headD 0 ≤ x := by
  cases s with
  | nil => intro x hx; exact absurd hx (List.not_mem_nil x)
  | cons a t =>
    intro x hx
    rcases List.mem_cons.mp hx with rfl | hx2
    · simp
    · simpa using (List.sorted_cons.mp hs).1 x hx2

theorem headD_mem (s : List ℚ) (h : s ≠ []) : s.headD 0 ∈ s := by
  cases s with
  | nil => exact absurd rfl h
  | cons a t => simp

theorem sorted_le_getLastD :
    ∀ (s : List ℚ) (d : ℚ), s.Sorted (fun a b => a ≤ b) →
      ∀ x ∈ s, x ≤ s.getLastD d
  | [], _, _, x, hx => absurd hx (List.not_mem_nil x)
  | a :: t, d, hs, x, hx => by
    rw [List.getLastD_cons]
    cases t with
    | nil =>
      simp only [List.mem_singleton] at hx
      simp [hx]
    | cons b t2 =>
      have h1 := (List.sorted_cons.mp hs).1
      have h2 := (List.sorted_cons.mp hs).2
      rcases List.mem_cons.mp hx with rfl | hx2
      · have hb : x ≤ b := h1 b (by simp)
        have hlast := sorted_le_getLastD (b :: t2) x h2 b (by simp)
        exact le_trans hb hlast
      · exact sorted_le_getLastD (b :: t2) x h2 x hx2

theorem getLastD_mem :
    ∀ (s : List ℚ) (d : ℚ), s ≠ [] → s.getLastD d ∈ s
  | [], _, h => absurd rfl h
  | a :: t, d, _ => by
    rw [List.getLastD_cons]
    cases t with
    | nil => simp
    | cons b t2 =>
      exact List.mem_cons_of_mem a (getLastD_mem (b :: t2) a (by simp))

/-! ### Lemmas about the bench.run timing loop -/

theorem timeFold_spec (nosort : Bool) :
    ∀ (entries : List TimedEntry) (acc : BenchAcc),
      timeFold nosort entries acc =
        { errored := acc.errored ++ errRows entries,
          printedNow := acc.printedNow ++ (if nosort then okRows entries else []),
          printout := acc.printout ++
            (if nosort then []
             else (okRows entries).map (fun r => (r.2.min, r))) }
  | [], acc => by
    cases acc
    simp [timeFold, errRows, okRows]
  | (name, Except.error e) :: rest, acc => by
    rw [timeFold, timeFold_spec nosort rest]
    simp [errRows, okRows, List.filterMap_cons]
  | (name, Except.ok result) :: rest, acc => by
    cases nosort with
    | true =>
      rw [timeFold]
      simp only [if_true]
      rw [timeFold_spec true rest]
      simp [errRows, okRows, List.filterMap_cons]
    | false =>
      rw [timeFold]
      simp only [Bool.false_eq_true, if_false]
      rw [timeFold_spec false rest]
      simp [errRows, okRows, List.filterMap_cons]

instance : IsTotal (ℚ × String × Stats) (fun a b => a.1 ≤ b.1) :=
  ⟨fun a b => le_total a.1 b.1⟩

instance : IsTrans (ℚ × String × Stats) (fun a b => a.1 ≤ b.1) :=
  ⟨fun _ _ _ hab hbc => le_trans hab hbc⟩

theorem benchRun_parts (nosort : Bool) (entries : List TimedEntry) :
    benchRun nosort entries =
      ((if nosort then okRows entries
        else (((okRows entries).map (fun r => (r.2.min, r))).insertionSort
          (fun a b => a.1 ≤ b.1)).map (fun t => t.2)),
       errRows entries) := by
  rw [benchRun, timeFold_spec nosort entries {}]
  by_cases hn : nosort <;> simp [hn]

/-! ### Claim theorems for the bench.py timing statistics and output -/

/-- C5: for every non-empty sample list the reported min is the smallest
sample and the max the largest (both are samples), the mean is the sum
divided by the count, and on the concrete samples `[1, 2, 3, 4]` the
report is min 1, mean 5/2, median 5/2, max 4. -/
theorem bench_stats_correct (l : List ℚ) (h : l ≠ []) :
    ((benchStats l).min ∈ l ∧ ∀ x ∈ l, (benchStats l).min ≤ x) ∧
    ((benchStats l).max ∈ l ∧ ∀ x ∈ l, x ≤ (benchStats l).max) ∧
    (benchStats l).mean = l.sum / (l.length : ℚ) ∧
    benchStats [1, 2, 3, 4] = ⟨1, 5/2, 5/2, 4⟩ := by
  have hperm : List.Perm (sortSamples l) l := List.perm_insertionSort _ l
  have hsorted : (sortSamples l).Sorted (fun a b => a ≤ b) :=
    List.sorted_insertionSort _ l
  have hne : sortSamples l ≠ [] := by
    intro hnil
    rw [hnil] at hperm
    exact h hperm.symm.eq_nil
  have hmin : (benchStats l).min = (sortSamples l).headD 0 := rfl
  have hmax : (benchStats l).max = (sortSamples l).getLastD 0 := rfl
  refine ⟨⟨?_, ?_⟩, ⟨?_, ?_⟩, rfl, ?_⟩
  · rw [hmin]
    exact hperm.mem_iff.mp (headD_mem _ hne)
  · intro x hx
    rw [hmin]
    exact sorted_headD_le _ hsorted x (hperm.mem_iff.mpr hx)
  · rw [hmax]
    exact hperm.mem_iff.mp (getLastD_mem _ 0 hne)
  · intro x hx
    rw [hmax]
    exact sorted_le_getLastD _ 0 hsorted x (hperm.mem_iff.mpr hx)
  · norm_num [benchStats, sortSamples, List.insertionSort, List.orderedInsert,
      Stats.mk.injEq]

/-- Witness for C5 at the concrete sample list `[1, 2, 3, 4]`. -/
theorem bench_stats_correct_witness :
    ((benchStats [1, 2, 3, 4]).min ∈ ([1, 2, 3, 4] : List ℚ) ∧
      ∀ x ∈ ([1, 2, 3, 4] : List ℚ), (benchStats [1, 2, 3, 4]).min ≤ x) ∧
    ((benchStats [1, 2, 3, 4]).max ∈ ([1, 2, 3, 4] : List ℚ) ∧
      ∀ x ∈ ([1, 2, 3, 4] : List ℚ), x ≤ (benchStats [1, 2, 3, 4]).max) ∧
    (benchStats [1, 2, 3, 4]).mean =
      ([1, 2, 3, 4] : List ℚ).sum / (([1, 2, 3, 4] : List ℚ).length : ℚ) ∧
    benchStats [1, 2, 3, 4] = ⟨1, 5/2, 5/2, 4⟩ :=
  bench_stats_correct [1, 2, 3, 4] (by decide)

theorem benchRun_lines_perm (nosort : Bool) (entries : List TimedEntry) :
    (benchRun nosort entries).1.Perm (okRows entries) := by
  rw [benchRun_parts]
  by_cases hn : nosort
  · simp [hn]
  · simp only [hn, if_false, Bool.false_eq_true]
    have hperm := List.perm_insertionSort (fun a b : ℚ × String × Stats => a.1 ≤ b.1)
      ((okRows entries).map (fun r => (r.2.min, r)))
    have hmap := hperm.map (fun t : ℚ × String × Stats => t.2)
    have hid : ((okRows entries).map (fun r => (r.2.min, r))).map
        (fun t : ℚ × String × Stats => t.2) = okRows entries := by
      rw [List.map_map]
      have hcomp : ((fun t : ℚ × String × Stats => t.2) ∘
          fun r : String × Stats => (r.2.min, r)) = id := rfl
      rw [hcomp, List.map_id]
    simpa [hid] using hmap

/-- C6: an entry whose timing raises is recorded (with its error detail)
in the errored report exactly as it occurs in the run, and the summary
lines still contain a row for every entry whose timing succeeded — a
failing entry never suppresses another entry's row. -/
theorem bench_errored_isolated (nosort : Bool) (entries : List TimedEntry) :
    (benchRun nosort entries).2 = errRows entries ∧
    (benchRun nosort entries).1.Perm (okRows entries) :=
  ⟨by rw [benchRun_parts], benchRun_lines_perm nosort entries⟩

/-- C7: without `nosort` the summary lines come out in ascending order of
each entry's minimum timing sample (and are exactly the successful rows,
re-ordered); with `nosort` they appear in the mapping's original order. -/
theorem bench_output_sorted (entries : List TimedEntry) :
    (benchRun true entries).1 = okRows entries ∧
    (benchRun false entries).1.Pairwise (fun a b => a.2.min ≤ b.2.min) ∧
    (benchRun false entries).1.Perm (okRows entries) := by
  refine ⟨by rw [benchRun_parts]; simp, ?_, benchRun_lines_perm false entries⟩
  rw [benchRun_parts]
  simp only [if_false, Bool.false_eq_true]
  set keyed := (okRows entries).map (fun r => (r.2.min, r)) with hkeyed
  have hsorted : (keyed.insertionSort (fun a b => a.1 ≤ b.1)).Pairwise
      (fun a b => a.1 ≤ b.1) := List.sorted_insertionSort _ keyed
  have hmem : ∀ t ∈ keyed.insertionSort (fun a b => a.1 ≤ b.1), t.1 = t.2.2.min := by
    intro t ht
    have hkm : t ∈ keyed := (List.perm_insertionSort _ keyed).mem_iff.mp ht
    rw [hkeyed] at hkm
    obtain ⟨r, _, rfl⟩ := List.mem_map.mp hkm
    rfl
  rw [List.pairwise_map]
  refine hsorted.imp_of_mem ?_
  intro a b ha hb hab
  have ha1 := hmem a ha
  have hb1 := hmem b hb
  rw [ha1, hb1] at hab
  exact hab

theorem selectedNames_cons (pre : List Char) (targets : List (List Char)) (m : Member)
    (rest : List Member) :
    selectedNames pre targets (m :: rest) =
      if selMember pre targets m then m.name :: selectedNames pre targets rest
      else selectedNames pre targets rest := by
  simp only [selectedNames, List.filter_cons]
  split <;> simp

theorem runLoop_runall (pre : List Char) (targets : List (List Char)) :
    ∀ (members : List Member) (st : SimState),
      ∃ st1, runLoop true pre targets members st = Except.ok st1 ∧
        st1.trace = st.trace ++ selectedNames pre targets members ∧
        st1.ntried = st.ntried + (selectedNames pre targets members).length ∧
        st1.npass + st1.failed.length =
          st.npass + st.failed.length + (selectedNames pre targets members).length
  | [], st => ⟨st, by simp [runLoop, selectedNames]⟩
  | m :: rest, st => by
    by_cases hsel : selMember pre targets m
    · by_cases hok : m.ok
      · obtain ⟨st1, h1, h2, h3, h4⟩ := runLoop_runall pre targets rest
          { st with ntried := st.ntried + 1, trace := st.trace ++ [m.name],
                    npass := st.npass + 1 }
        refine ⟨st1, ?_, ?_, ?_, ?_⟩
        · simpa [runLoop, runStep, hsel, hok] using h1
        · simp only [h2, selectedNames_cons, hsel, if_true]
          simp
        · simp only [h3, selectedNames_cons, hsel, if_true]
          simp; omega
        · simp only [selectedNames_cons, hsel, if_true]
          simp at h4 ⊢; omega
      · obtain ⟨st1, h1, h2, h3, h4⟩ := runLoop_runall pre targets rest
          { st with ntried := st.ntried + 1, trace := st.trace ++ [m.name],
                    failed := st.failed ++ [m.name.drop pre.length] }
        refine ⟨st1, ?_, ?_, ?_, ?_⟩
        · simpa [runLoop, runStep, hsel, hok] using h1
        · simp only [h2, selectedNames_cons, hsel, if_true]
          simp
        · simp only [h3, selectedNames_cons, hsel, if_true]
          simp; omega
        · simp only [selectedNames_cons, hsel, if_true]
          simp at h4 ⊢; omega
    · obtain ⟨st1, h1, h2, h3, h4⟩ := runLoop_runall pre targets rest st
      refine ⟨st1, ?_, ?_, ?_, ?_⟩ <;>
        simp_all [runLoop, runStep, hsel, selectedNames_cons]

theorem runLoop_failfast (pre : List Char) (targets : List (List Char)) (f : Member)
    (l₂ : List Member) (hsel : selMember pre targets f = true)
    (hok : f.ok = false) :
    ∀ (l₁ : List Member) (st : SimState),
      (∀ m ∈ l₁, selMember pre targets m = true → m.ok = true) →
      ∃ st1, runLoop false pre targets (l₁ ++ f :: l₂) st = Except.error st1 ∧
        st1.trace = st.trace ++ selectedNames pre targets l₁ ++ [f.name]
  | [], st, _ => by
    refine ⟨{ st with ntried := st.ntried + 1, trace := st.trace ++ [f.name] }, ?_, ?_⟩
    · simp [runLoop, runStep, hsel, hok]
    · simp [selectedNames]
  | m :: rest, st, hpass => by
    by_cases hm : selMember pre targets m
    · have hmok : m.ok = true := hpass m (by simp) hm
      obtain ⟨st1, h1, h2⟩ := runLoop_failfast pre targets f l₂ hsel hok rest
        { st with ntried := st.ntried + 1, trace := st.trace ++ [m.name],
                  npass := st.npass + 1 }
        (fun x hx h => hpass x (by simp [hx]) h)
      refine ⟨st1, ?_, ?_⟩
      · simpa [runLoop, runStep, hm, hmok] using h1
      · simp only [h2, selectedNames_cons, hm, if_true]
        simp
    · obtain ⟨st1, h1, h2⟩ := runLoop_failfast pre targets f l₂ hsel hok rest st
        (fun x hx h => hpass x (by simp [hx]) h)
      refine ⟨st1, ?_, ?_⟩
      · simpa [runLoop, runStep, hm] using h1
      · simp only [h2, selectedNames_cons, hm, if_false]
        simp

/-! ### Lemmas about bench.check_values -/

theorem collectResults_results {V : Type} (gdict : NS V) (vname : String) :
    ∀ (i : Nat) (scripts : List (String × Frag V)),
      (collectResults gdict vname i scripts).results =
        scripts.map (fun p => nsLookup vname (p.2 gdict))
  | _, [] => rfl
  | i, (name, script) :: rest => by
    cases h : nsLookup vname (script gdict) <;>
      simp [collectResults, h, collectResults_results gdict vname (i + 1) rest]

theorem collectResults_valid_names {V : Type} (gdict : NS V) (vname : String) :
    ∀ (i : Nat) (scripts : List (String × Frag V)),
      (collectResults gdict vname i scripts).valid.map (fun t => t.2.1) =
        (scripts.filter (fun p => (nsLookup vname (p.2 gdict)).isSome)).map Prod.fst
  | _, [] => rfl
  | i, (name, script) :: rest => by
    cases h : nsLookup vname (script gdict) <;>
      simp [collectResults, h, List.filter_cons,
        collectResults_valid_names gdict vname (i + 1) rest]

theorem collectResults_invalid {V : Type} (gdict : NS V) (vname : String) :
    ∀ (i : Nat) (scripts : List (String × Frag V)),
      (collectResults gdict vname i scripts).invalid =
        (scripts.filter (fun p => !(nsLookup vname (p.2 gdict)).isSome)).map Prod.fst
  | _, [] => rfl
  | i, (name, script) :: rest => by
    cases h : nsLookup vname (script gdict) <;>
      simp [collectResults, h, List.filter_cons,
        collectResults_invalid gdict vname (i + 1) rest]

theorem groupEqFuel_flatten_perm {V : Type} (eqf : V → V → Bool) :
    ∀ (fuel : Nat) (valid : List (Nat × String × V)), valid.length ≤ fuel →
      (((groupEqFuel eqf fuel valid).map (fun s => s.2)).flatten).Perm
        (valid.map (fun t => t.2.1))
  | _, [], _ => by simp [groupEqFuel]
  | 0, (k, n, v) :: rest, h => by simp at h
  | Nat.succ fuel, (k, n, v) :: rest, h => by
    have hlen : (rest.filter (fun p => !eqf v p.2.2)).length ≤ fuel := by
      have hf := List.length_filter_le (fun p => !eqf v p.2.2) rest
      simp only [List.length_cons, Nat.succ_le_succ_iff] at h
      omega
    have IH := groupEqFuel_flatten_perm eqf fuel
      (rest.filter (fun p => !eqf v p.2.2)) hlen
    simp only [groupEqFuel, List.map_cons, List.flatten_cons, List.cons_append]
    refine List.Perm.cons n ?_
    have step1 : ((rest.filter (fun p => eqf v p.2.2)).map (fun p => p.2.1) ++
        ((groupEqFuel eqf fuel (rest.filter (fun p => !eqf v p.2.2))).map
          (fun s => s.2)).flatten).Perm
        ((rest.filter (fun p => eqf v p.2.2)).map (fun p => p.2.1) ++
          (rest.filter (fun p => !eqf v p.2.2)).map (fun t => t.2.1)) :=
      List.Perm.append_left _ IH
    refine step1.trans ?_
    rw [← List.map_append]
    exact (List.filter_append_perm _ rest).map _

theorem check_values_sets_flatten_perm {V : Type}
    (scripts : List (String × Frag V)) (setup : Frag V) (eqf : V → V → Bool)
    (vname : String) :
    ((((check_values scripts setup eqf vname).1).map (fun s => s.2)).flatten).Perm
      ((scripts.filter
        (fun p => (nsLookup vname (p.2 (setup []))).isSome)).map Prod.fst) := by
  have h1 := groupEqFuel_flatten_perm eqf
    (collectResults (setup []) vname 0 scripts).valid.length
    (collectResults (setup []) vname 0 scripts).valid (le_refl _)
  have h2 := collectResults_valid_names (setup []) vname 0 scripts
  rw [h2] at h1
  exact h1

/-! ### Claim theorems for bench.check_values and the equivalence gate -/

/-- C9: each fragment is executed on (a copy of) exactly the namespace the
setup produced: the extracted result for every entry is a function of the
setup namespace and that entry's own fragment alone, so no assignment made
by one fragment is visible to any other fragment or can alter the result
extracted for it. -/
theorem check_values_isolated {V : Type} (scripts : List (String × Frag V))
    (setup : Frag V) (eqf : V → V → Bool) (vname : String) :
    (check_values scripts setup eqf vname).2.1 =
      scripts.map (fun p => nsLookup vname (p.2 (setup []))) :=
  collectResults_results (setup []) vname 0 scripts

/-- C3: the equivalence gate of `bench.run` raises exactly when the number
of equivalence sets is not one — in particular it raises (carrying the
sets it prints) whenever the defined results split into more than one
class, and timing proceeds without error when they form exactly one
class. -/
theorem bench_equiv_gate (V : Type) (scripts : List (String × Frag V))
    (setup : Frag V) (eqf : V → V → Bool) (vname : String) :
    (1 < (check_values scripts setup eqf vname).1.length →
      runEquivCheck scripts setup eqf vname =
        Except.error (check_values scripts setup eqf vname).1) ∧
    ((check_values scripts setup eqf vname).1.length = 1 →
      runEquivCheck scripts setup eqf vname = Except.ok ()) := by
  constructor
  · intro h
    rw [runEquivCheck, if_neg]
    omega
  · intro h
    rw [runEquivCheck, if_pos h]

/-- Witness for C3: with fragments binding `result` to 1 and to 2 and
equality `==`, `check_values` yields two equivalence sets and the gate
raises listing both; with both fragments binding `result` to 1 it yields
one set and the gate passes. -/
theorem bench_equiv_gate_witness :
    runEquivCheck
      [("a", fun ns => ("result", (1 : ℤ)) :: ns),
       ("b", fun ns => ("result", (2 : ℤ)) :: ns)]
      (fun ns => ns) (fun a b => a == b) "result" =
        Except.error [(0, ["a"]), (1, ["b"])] ∧
    runEquivCheck
      [("a", fun ns => ("result", (1 : ℤ)) :: ns),
       ("b", fun ns => ("result", (1 : ℤ)) :: ns)]
      (fun ns => ns) (fun a b => a == b) "result" = Except.ok () := by
  constructor
  · have hsets : (check_values
        [("a", fun ns => ("result", (1 : ℤ)) :: ns),
         ("b", fun ns => ("result", (2 : ℤ)) :: ns)]
        (fun ns => ns) (fun a b => a == b) "result").1 =
          [(0, ["a"]), (1, ["b"])] := by decide
    have h := (bench_equiv_gate ℤ
      [("a", fun ns => ("result", (1 : ℤ)) :: ns),
       ("b", fun ns => ("result", (2 : ℤ)) :: ns)]
      (fun ns => ns) (fun a b => a == b) "result").1 (by decide)
    rw [h, hsets]
  · exact (bench_equiv_gate ℤ
      [("a", fun ns => ("result", (1 : ℤ)) :: ns),
       ("b", fun ns => ("result", (1 : ℤ)) :: ns)]
      (fun ns => ns) (fun a b => a == b) "result").2 (by decide)

/-- C10: when no fragment defines the checked variable, the set of
equivalence sets is empty and the gate still raises — the error branch
fires whenever the set count differs from one, not only when it exceeds
one. -/
theorem bench_equiv_gate_empty (V : Type) (scripts : List (String × Frag V))
    (setup : Frag V) (eqf : V → V → Bool) (vname : String)
    (h : ∀ p ∈ scripts, nsLookup vname (p.2 (setup [])) = none) :
    (check_values scripts setup eqf vname).1 = [] ∧
    runEquivCheck scripts setup eqf vname = Except.error [] := by
  have hnames : (collectResults (setup []) vname 0 scripts).valid.map
      (fun t => t.2.1) = [] := by
    rw [collectResults_valid_names]
    have hfil : scripts.filter
        (fun p => (nsLookup vname (p.2 (setup []))).isSome) = [] := by
      rw [List.filter_eq_nil_iff]
      intro p hp
      rw [h p hp]
      simp
    rw [hfil, List.map_nil]
  have hvalid : (collectResults (setup []) vname 0 scripts).valid = [] :=
    List.map_eq_nil_iff.mp hnames
  have hsets : (check_values scripts setup eqf vname).1 = [] := by
    show groupEq eqf (collectResults (setup []) vname 0 scripts).valid = []
    rw [hvalid]
    rfl
  refine ⟨hsets, ?_⟩
  rw [runEquivCheck]
  rw [if_neg (by rw [hsets]; simp)]
  rw [hsets]

/-- C4: the equivalence sets partition exactly the entries that defined
the checked variable: the name of every entry that defined `vname` occurs
exactly once across all returned sets and is not reported unchecked, while
the name of every entry that did not define `vname` is reported unchecked
and occurs in no set.  (Entry names are distinct because `scripts` is a
Python dict.) -/
theorem check_values_partition (V : Type) (scripts : List (String × Frag V))
    (setup : Frag V) (eqf : V → V → Bool) (vname : String)
    (hnodup : (scripts.map Prod.fst).Nodup) (p : String × Frag V)
    (hp : p ∈ scripts) :
    ((nsLookup vname (p.2 (setup []))).isSome = true →
      ((((check_values scripts setup eqf vname).1.map
          (fun s => s.2)).flatten).count p.1 = 1 ∧
        p.1 ∉ (check_values scripts setup eqf vname).2.2)) ∧
    ((nsLookup vname (p.2 (setup []))).isSome = false →
      (p.1 ∈ (check_values scripts setup eqf vname).2.2 ∧
        (((check_values scripts setup eqf vname).1.map
          (fun s => s.2)).flatten).count p.1 = 0)) := by
  have hperm := check_values_sets_flatten_perm scripts setup eqf vname
  have hinv : (check_values scripts setup eqf vname).2.2 =
      (scripts.filter
        (fun q => !(nsLookup vname (q.2 (setup []))).isSome)).map Prod.fst :=
    collectResults_invalid (setup []) vname 0 scripts
  have hcount : ∀ a, (((check_values scripts setup eqf vname).1.map
      (fun s => s.2)).flatten).count a =
      ((scripts.filter
        (fun q => (nsLookup vname (q.2 (setup []))).isSome)).map Prod.fst).count a :=
    fun a => hperm.count_eq a
  have hinj := List.inj_on_of_nodup_map hnodup
  constructor
  · intro hde
    constructor
    · rw [hcount]
      have hmem1 : p ∈ scripts.filter
          (fun q => (nsLookup vname (q.2 (setup []))).isSome) :=
        List.mem_filter.mpr ⟨hp, hde⟩
      have hdefNodup : ((scripts.filter
          (fun q => (nsLookup vname (q.2 (setup []))).isSome)).map Prod.fst).Nodup :=
        ((List.filter_sublist scripts).map Prod.fst).nodup hnodup
      exact List.count_eq_one_of_mem hdefNodup (List.mem_map_of_mem Prod.fst hmem1)
    · rw [hinv]
      intro hmem
      obtain ⟨q, hq, hq1⟩ := List.mem_map.mp hmem
      have hqf := List.mem_filter.mp hq
      have hqp : q = p := hinj hqf.1 hp hq1
      rw [hqp] at hqf
      simp [hde] at hqf
  · intro hde
    constructor
    · rw [hinv]
      refine List.mem_map_of_mem Prod.fst (List.mem_filter.mpr ⟨hp, ?_⟩)
      simp [hde]
    · rw [hcount]
      rw [List.count_eq_zero]
      intro hmem
      obtain ⟨q, hq, hq1⟩ := List.mem_map.mp hmem
      have hqf := List.mem_filter.mp hq
      have hqp : q = p := hinj hqf.1 hp hq1
      rw [hqp] at hqf
      rw [hde] at hqf
      exact Bool.false_ne_true hqf.2

/-- Witness for C4: with one fragment binding `result`, one binding a
different value for `result`, and one binding nothing, the first two names
each occur exactly once across the equivalence sets and the third is
reported unchecked and appears in no set. -/
theorem check_values_partition_witness :
    ((((check_values
        [("a", fun ns => ("result", (1 : ℤ)) :: ns),
         ("b", fun ns => ("result", (2 : ℤ)) :: ns),
         ("c", fun ns => ns)]
        (fun ns => ns) (fun a b => a == b) "result").1.map
          (fun s => s.2)).flatten).count "a" = 1 ∧
      "a" ∉ (check_values
        [("a", fun ns => ("result", (1 : ℤ)) :: ns),
         ("b", fun ns => ("result", (2 : ℤ)) :: ns),
         ("c", fun ns => ns)]
        (fun ns => ns) (fun a b => a == b) "result").2.2) ∧
    ("c" ∈ (check_values
        [("a", fun ns => ("result", (1 : ℤ)) :: ns),
         ("b", fun ns => ("result", (2 : ℤ)) :: ns),
         ("c", fun ns => ns)]
        (fun ns => ns) (fun a b => a == b) "result").2.2 ∧
      (((check_values
        [("a", fun ns => ("result", (1 : ℤ)) :: ns),
         ("b", fun ns => ("result", (2 : ℤ)) :: ns),
         ("c", fun ns => ns)]
        (fun ns => ns) (fun a b => a == b) "result").1.map
          (fun s => s.2)).flatten).count "c" = 0) :=
  ⟨(check_values_partition ℤ
      [("a", fun ns => ("result", (1 : ℤ)) :: ns),
       ("b", fun ns => ("result", (2 : ℤ)) :: ns),
       ("c", fun ns => ns)]
      (fun ns => ns) (fun a b => a == b) "result" (by decide)
      ("a", fun ns => ("result", (1 : ℤ)) :: ns) (by simp)).1 (by decide),
   (check_values_partition ℤ
      [("a", fun ns => ("result", (1 : ℤ)) :: ns),
       ("b", fun ns => ("result", (2 : ℤ)) :: ns),
       ("c", fun ns => ns)]
      (fun ns => ns) (fun a b => a == b) "result" (by decide)
      ("c", fun ns => ns) (by simp)).2 (by decide)⟩

/-- Witness for C10: a single fragment that binds nothing produces zero
equivalence sets and the gate raises `ValueError`. -/
theorem bench_equiv_gate_empty_witness :
    (check_values [("a", fun ns => ns)] (fun ns => ns)
      (fun a b : ℤ => a == b) "result").1 = [] ∧
    runEquivCheck [("a", fun ns => ns)] (fun ns => ns)
      (fun a b : ℤ => a == b) "result" = Except.error [] :=
  bench_equiv_gate_empty ℤ [("a", fun ns => ns)] (fun ns => ns)
    (fun a b => a == b) "result"
    (by intro p hp; simp at hp; rw [hp]; rfl)

/-! ### Claim theorems for simple.py -/

/-- C1: with `runall = true`, `simple.run` invokes each selected member
exactly once and in order (the invocation trace equals the selected-name
list), attempts exactly the selected members, and reports
`npass = ntried - failed.length`. -/
theorem simple_run_runall_counts (pre : List Char) (targets : List (List Char))
    (members : List Member) :
    ∃ st, runSimple true pre targets members = Except.ok st ∧
      st.trace = selectedNames pre targets members ∧
      st.ntried = (selectedNames pre targets members).length ∧
      st.failed.length ≤ st.ntried ∧
      st.npass = st.ntried - st.failed.length := by
  obtain ⟨st, h1, h2, h3, h4⟩ := runLoop_runall pre targets members {}
  have h2' : st.trace = selectedNames pre targets members := by simpa using h2
  have h3' : st.ntried = (selectedNames pre targets members).length := by
    simpa using h3
  have h4' : st.npass + st.failed.length =
      (selectedNames pre targets members).length := by simpa using h4
  exact ⟨st, h1, h2', h3', by omega, by omega⟩

/-- C2: with `runall = false` and exactly one failing selected test `f`,
`simple.run` raises: the result is an exception carrying the state at the
raise, whose invocation trace is exactly the selected members before `f`
followed by `f` itself — no member after the failing one is invoked. -/
theorem simple_run_failfast_stops (pre : List Char) (targets : List (List Char))
    (l₁ : List Member) (f : Member) (l₂ : List Member)
    (hsel : selMember pre targets f = true) (hok : f.ok = false)
    (hpre : ∀ m ∈ l₁, selMember pre targets m = true → m.ok = true)
    (_hpost : ∀ m ∈ l₂, selMember pre targets m = true → m.ok = true) :
    ∃ st, runSimple false pre targets (l₁ ++ f :: l₂) = Except.error st ∧
      st.trace = selectedNames pre targets l₁ ++ [f.name] := by
  obtain ⟨st, h1, h2⟩ := runLoop_failfast pre targets f l₂ hsel hok l₁ {} hpre
  exact ⟨st, h1, by simpa using h2⟩

/-- Witness for C2: a concrete module with passing test `test_a`, failing
test `test_b` and passing test `test_c` (declaration order) raises with a
trace that stops at `test_b`. -/
theorem simple_run_failfast_stops_witness :
    ∃ st, runSimple false "test_".data []
        [⟨"test_a".data, true⟩, ⟨"test_b".data, false⟩, ⟨"test_c".data, true⟩] =
          Except.error st ∧
      st.trace = selectedNames "test_".data [] [⟨"test_a".data, true⟩]
          ++ ["test_b".data] :=
  simple_run_failfast_stops "test_".data [] [⟨"test_a".data, true⟩]
    ⟨"test_b".data, false⟩ [⟨"test_c".data, true⟩] (by decide) (by decide)
    (by intro m hm h; simp at hm; subst hm; rfl)
    (by intro m hm h; simp at hm; subst hm; rfl)

/-- C8: for a file or directory target, `_import` runs the import attempt
with the containing directory `dname` at the front of the search path, and
after the attempt — whatever its outcome — the search path equals the path
before the call. -/
theorem import_path_restored (dname : String) (path0 : List String)
    (outcome : ImportOutcome) :
    importDuringPath dname path0 = dname :: path0 ∧
    importFinalPath dname path0 outcome = path0 := by
  refine ⟨rfl, ?_⟩
  cases outcome <;> simp [importFinalPath, importDuringPath, pyRemove]

end JhsiaoTests
